import Mathlib

/-!
Shallow embedding of the attribute-to-visual-property mapping pipeline of the
graft graph-visualisation helper (files `graft/graph.py`, `graft/map_node.py`,
`graft/map_edge.py`, `graft/graph_extract.py`), together with theorems settling
the specification claims about it.

Modelling conventions: machine reals are modelled as `ℚ`.  A Python expression
that raises an exception, and a torch/numpy machine-float division by zero that
silently produces IEEE NaN or Inf, are both modelled with `Option` (`none` = no
ordinary numeric result); the doc comment of each definition says which of the
two it is at each `none`.
-/

/-- A Python number as it appears in an attribute list: an `int` or a `float`.
`numpy`/`torch` promote a mixed list to all-float, so testing whether any element
of the converted array is a float is equivalent to testing whether some original
element is a float, which is what `PyNum.isFloat` records per element. -/
inductive PyNum where
  | int : ℤ → PyNum
  | float : ℚ → PyNum
deriving DecidableEq

/-- Numeric value of a Python number (Python compares `1 == 1.0` as equal, so
distinctness of a sequence is distinctness of these values). -/
def PyNum.toRat : PyNum → ℚ
  | .int n => (n : ℚ)
  | .float q => q

def PyNum.isFloat : PyNum → Bool
  | .int _ => false
  | .float _ => true

/-- Python `int(x)`: truncation toward zero (`Int.div` is T-division). -/
def PyNum.toInt : PyNum → ℤ
  | .int n => n
  | .float q => Int.tdiv q.num (q.den : ℤ)

/-- Division as torch/numpy perform it on machine floats: a zero denominator does
not raise, it silently yields NaN (for 0/0) or ±Inf, modelled as `none`. -/
def ratDiv (a b : ℚ) : Option ℚ := if b = 0 then none else some (a / b)

/-- The normalisation loop of `map_node.py::map_node_sizes` (lines 104-109), on
numpy scalar values: `min`/`max` of an empty sequence raise (outer `none`), and a
constant sequence makes every `(x - y_min) / (y_max - y_min)` a silent NaN
(entry `none`).  The source has no branch for `y_max == y_min`. -/
def normalizeNp (v : List ℚ) : Option (List (Option ℚ)) :=
  match v.min?, v.max? with
  | some mn, some mx => some (v.map fun x => ratDiv (x - mn) (mx - mn))
  | _, _ => none

/-- Embedding of `map_node.py::map_node_sizes` (lines 101-110): normalise, then
`size = min_size + normalized * (max_size - min_size)` with
`min_size, max_size = 10, 50`. -/
def map_node_sizes (node_sizes : List ℚ) : Option (List (Option ℚ)) :=
  (normalizeNp node_sizes).map (List.map (Option.map fun t => 10 + t * (50 - 10)))

/-- Embedding of `graph.py::_map_vertex_size` (lines 116-129): the same loop but with
`min_size, max_size = 5, 20`, and the arithmetic is done on Python scalars
(`value.item()`), so a constant sequence raises `ZeroDivisionError`
(whole-function `none`). -/
def mapVertexSize (node_size : List ℚ) : Option (List ℚ) :=
  match node_size.min?, node_size.max? with
  | some mn, some mx =>
      if mx - mn = 0 then none
      else some (node_size.map fun x => 5 + (x - mn) / (mx - mn) * (20 - 5))
  | _, _ => none

/-- Python `tuple(sorted(edge))` for a 2-element edge: put the pair in ascending order. -/
def sortPair (e : ℕ × ℕ) : ℕ × ℕ := if e.1 ≤ e.2 then e else (e.2, e.1)

/-- The Python expression building a set of sorted edge tuples from an edge list:
each pair is ordered ascending and duplicates are removed.  Python set iteration
order is arbitrary; `List.dedup` fixes one order, and the theorems below only use
membership and count, which are order-independent. -/
def dedupEdges (edge_index : List (ℕ × ℕ)) : List (ℕ × ℕ) :=
  (edge_index.map sortPair).dedup

/-- Embedding of `graph_extract.py::_extract_graph_components`, lines 100-105 (the path used by
`graph.py::plot`): when `graph.is_undirected()` holds the edge list is taken
as-is, otherwise it is de-duplicated by unordered pair.  Note the orientation of
the test — compare `extractLinksMapEdge`. -/
def extractLinks (is_undirected : Bool) (edge_index : List (ℕ × ℕ)) : List (ℕ × ℕ) :=
  if is_undirected then edge_index else dedupEdges edge_index

/-- Embedding of `map_edge.py::map_edge_weight_text`, lines 24-29 (the same block appears in
`map_edge.py::map_edge_pen_widths`, lines 61-66): when `graph.is_directed()`
holds the edge list is taken as-is, otherwise it is de-duplicated by unordered
pair.  For a torch-geometric graph `is_directed()` is the negation of
`is_undirected()`. -/
def extractLinksMapEdge (is_directed : Bool) (edge_index : List (ℕ × ℕ)) : List (ℕ × ℕ) :=
  if is_directed then edge_index else dedupEdges edge_index

/-- The fixed qualitative palette `colors_dict` (identical literal in
`map_node.py` lines 56-67 and `graph.py` lines 76-87): a dictionary from category
count to a list of hex colours; a count with no entry raises `KeyError`
(`none`).  The hex→RGB conversion applied afterwards in the source is an
injective conversion of these literals by an external library, so the hex string
is kept as the identity of the colour. -/
def colors_dict (k : ℕ) : Option (List String) :=
  match k with
  | 1 => some ["#F8766D"]
  | 2 => some ["#F8766D", "#00BFC4"]
  | 3 => some ["#F8766D", "#00BA38", "#619CFF"]
  | 4 => some ["#F8766D", "#7CAE00", "#00BFC4", "#C77CFF"]
  | 5 => some ["#F8766D", "#A3A500", "#00BF7D", "#00B0F6", "#E76BF3"]
  | 6 => some ["#F8766D", "#B79F00", "#00BA38", "#00BFC4", "#619CFF", "#F564E3"]
  | 7 => some ["#F8766D", "#C49A00", "#53B400", "#00C094", "#00B6EB", "#A58AFF", "#FB61D7"]
  | 8 => some ["#F8766D", "#CD9600", "#7CAE00", "#00BE67", "#00BFC4", "#00A9FF", "#C77CFF", "#FF61CC"]
  | 9 => some ["#F8766D", "#D39200", "#93AA00", "#00BA38", "#00C19F", "#00B9E3", "#619CFF", "#DB72FB", "#FF61C3"]
  | 10 => some ["#F8766D", "#A3A500", "#39B600", "#00BF7D", "#00BFC4", "#00B0F6", "#9590FF", "#E76BF3", "#FF62BC", "#D89000"]
  | _ => none

/-- A per-element assignment loop in which the first element on which `f` fails
aborts the whole loop (a raised exception); otherwise the list of results. -/
def mapLoop {α β : Type} (f : α → Option β) : List α → Option (List β)
  | [] => some []
  | x :: xs =>
    match f x, mapLoop f xs with
    | some y, some ys => some (y :: ys)
    | _, _ => none

/-- Python list indexing `l[i]` with an integer index: negative indices count
from the end; anything out of range raises `IndexError` (`none`). -/
def pyIndex {α : Type} (l : List α) (i : ℤ) : Option α :=
  if 0 ≤ i then l.get? i.toNat
  else if (-i).toNat ≤ l.length then l.get? (l.length - (-i).toNat) else none

/-- Categorical branch of `graph.py::_map_vertex_color` (lines 75-99): look up
the palette for the distinct-value count, let `unique_y = torch.unique(y)` (the
distinct values sorted ascending), map the value of sorted rank `i` to palette
entry `i` (the `i % len` in the source is the identity since `i` never reaches
`len`), then assign each element the colour of its value. -/
def mapVertexColorCat (y : List ℤ) : Option (List String) :=
  match colors_dict y.dedup.length with
  | none => none
  | some p =>
      let u := List.insertionSort (· ≤ ·) y.dedup
      mapLoop (fun v => (List.indexOf? v u).bind fun i => p.get? i) y

/-- Categorical branch of `map_node.py::map_node_colors` (lines 55-81): the
dictionary comprehension maps `int(val)` to `ggplot_colors_rgb[val]` for each
distinct value — the palette is indexed by the VALUE itself, not by its sorted
rank, raising `IndexError` whenever a value falls outside the index range of the
palette. -/
def mapNodeColorsCat (y : List ℤ) : Option (List String) :=
  match colors_dict y.dedup.length with
  | none => none
  | some p => mapLoop (fun v => pyIndex p v) y

/-- The numeric values of an attribute sequence, as the numpy/torch conversion
produces them. -/
def vals (y : List PyNum) : List ℚ := y.map PyNum.toRat

/-- Python `len(set(y))` in `map_node.py` / `len(y.unique())` in `graph.py`: the number
of distinct numeric values. -/
def countDistinct (y : List PyNum) : ℕ := (vals y).dedup.length

/-- The continuous-versus-categorical test, `map_node.py` line 47 and `graph.py`
line 68: continuous iff some element is a float or there are more than 10
distinct values. -/
def isContinuousCode (y : List PyNum) : Bool :=
  y.any PyNum.isFloat || decide (10 < countDistinct y)

/-- A produced colour: either an RGBA sample of the continuous colormap or a
palette hex entry (converted to RGB downstream by an injective external
conversion). -/
inductive Color where
  | rgba : ℚ → ℚ → ℚ → ℚ → Color
  | hex : String → Color
deriving DecidableEq

/-- Embedding of `graph.py::_map_vertex_color` (lines 48-101).  The continuous branch
normalises with Python-scalar arithmetic — `ZeroDivisionError` on a constant
sequence, hence `none` — and samples the matplotlib spring colormap, whose
gradient at position `t` is the RGBA value `(1, t, 1 - t, 1)`.  The categorical
branch is `mapVertexColorCat` on the values as Python ints. -/
def mapVertexColor (node_color : List PyNum) : Option (List Color) :=
  if isContinuousCode node_color then
    match (vals node_color).min?, (vals node_color).max? with
    | some mn, some mx =>
        if mx - mn = 0 then none
        else some ((vals node_color).map fun x =>
          Color.rgba 1 ((x - mn) / (mx - mn)) (1 - (x - mn) / (mx - mn)) 1)
    | _, _ => none
  else
    (mapVertexColorCat (node_color.map PyNum.toInt)).map (List.map Color.hex)

/-- Embedding of `map_edge.py::map_edge_pen_widths` (lines 69-74): `weights.max()` on an empty
tensor raises (`none`); otherwise every entry is
`(weights / weights.max())[idx].item() * edge_weight_width_scale`, where a zero
maximum makes the torch division produce NaN/Inf silently (entry `none`). -/
def map_edge_pen_widths (weights : List ℚ) (edge_weight_width_scale : ℚ) :
    Option (List (Option ℚ)) :=
  match weights.max? with
  | none => none
  | some mx => some (weights.map fun w => (ratDiv w mx).map (· * edge_weight_width_scale))

/-- Round to the nearest integer, ties to even (the rounding used by Python
float formatting). -/
def roundHalfEven (q : ℚ) : ℤ :=
  if q - ⌊q⌋ < 1 / 2 then ⌊q⌋
  else if 1 / 2 < q - ⌊q⌋ then ⌊q⌋ + 1
  else if ⌊q⌋ % 2 = 0 then ⌊q⌋ else ⌊q⌋ + 1

/-- Python `format(x, ".2f")`, the default edge-weight text format: fixed-point
rendering with two decimal places (sign, integer part, two-digit fraction). -/
def formatFix2 (q : ℚ) : String :=
  (if roundHalfEven (q * 100) < 0 then "-" else "") ++
  toString ((roundHalfEven (q * 100)).natAbs / 100) ++ "." ++
  (if (roundHalfEven (q * 100)).natAbs % 100 < 10 then "0" else "") ++
  toString ((roundHalfEven (q * 100)).natAbs % 100)

/-- Embedding of `graph.py::_set_links` (lines 12-26): for every link index, the edge text is
`format(weights[idx].item(), edge_weight_text_format)` — the semantics of the
format string is passed in as the function `fmt` — and the pen width is
`(weights / weights.max())[idx].item() * edge_weight_width_scale`.
`weights.max()` raises on an empty tensor, and `weights[idx]` raises `IndexError`
when there are more links than weights (both `none`); a zero maximum makes the
torch division yield NaN entries (`none` entries), as in `map_edge_pen_widths`. -/
def setLinks (links : List (ℕ × ℕ)) (weights : List ℚ) (fmt : ℚ → String) (scale : ℚ) :
    Option (List String × List (Option ℚ)) :=
  match weights.max? with
  | none => none
  | some mx =>
      if links.length ≤ weights.length then
        some ((weights.take links.length).map fmt,
              (weights.take links.length).map fun w => (ratDiv w mx).map (· * scale))
      else none

/-- Embedding of `map_node.py::map_node_names` (lines 17-24), `node_names` present: the loop
writes `name` at index `idx` into a fresh string vertex property over
`num_nodes` vertices; unwritten entries keep the empty-string default, and
writing past the last vertex raises (`none`).  No length check happens before
the loop. -/
def map_node_names (num_nodes : ℕ) (node_names : List String) : Option (List String) :=
  if node_names.length ≤ num_nodes then
    some ((List.range num_nodes).map fun i => node_names.getD i "")
  else none

/-- Python truthiness of an optional list: `None` and the empty list are falsy. -/
def pyTruthy {α : Type} : Option (List α) → Bool
  | none => false
  | some l => !l.isEmpty

/-- Embedding of `graph.py::_set_nodes` (lines 40-46) as called from `plot`: only a truthy
`node_names` argument creates the vertex text property (modelled as the
positional list of labels); otherwise `v_text_prop` stays `None` and `plot`
passes `vertex_text=None` to the renderer, skipping label display. -/
def setNodesText (node_names : Option (List String)) : Option (List String) :=
  if pyTruthy node_names then node_names else none

/-! ## Helper lemmas -/

theorem min?_spec {v : List ℚ} {m : ℚ} (h : v.min? = some m) :
    m ∈ v ∧ ∀ x ∈ v, m ≤ x := by
  refine ⟨List.min?_mem (fun a b => min_choice a b) h, fun x hx => ?_⟩
  exact (List.le_min?_iff (fun a b c => le_min_iff) h).mp le_rfl x hx

theorem max?_spec {v : List ℚ} {m : ℚ} (h : v.max? = some m) :
    m ∈ v ∧ ∀ x ∈ v, x ≤ m := by
  refine ⟨List.max?_mem (fun a b => max_choice a b) h, fun x hx => ?_⟩
  exact (List.max?_le_iff (fun a b c => max_le_iff) h).mp le_rfl x hx

theorem dedup_length_le_one_of_const {l : List ℚ} {c : ℚ} (h : ∀ x ∈ l, x = c) :
    l.dedup.length ≤ 1 := by
  induction l with
  | nil => simp
  | cons a t ih =>
    cases t with
    | nil => simp
    | cons b t2 =>
      have ha : a ∈ b :: t2 := by
        have h1 : a = c := h a (by simp)
        have h2 : b = c := h b (by simp)
        rw [h1, ← h2]
        simp
      rw [List.dedup_cons_of_mem ha]
      exact ih (fun x hx => h x (List.mem_cons_of_mem a hx))

theorem mapLoop_mem {α β : Type} {f : α → Option β} :
    ∀ {l : List α} {r : List β}, mapLoop f l = some r → ∀ c ∈ r, ∃ a ∈ l, f a = some c := by
  intro l
  induction l with
  | nil =>
    intro r hr c hc
    simp only [mapLoop, Option.some.injEq] at hr
    subst hr
    simp at hc
  | cons x xs ih =>
    intro r hr c hc
    simp only [mapLoop] at hr
    cases hfx : f x with
    | none => rw [hfx] at hr; simp at hr
    | some y =>
      rw [hfx] at hr
      cases hrec : mapLoop f xs with
      | none => rw [hrec] at hr; simp at hr
      | some ys =>
        rw [hrec] at hr
        simp only [Option.some.injEq] at hr
        subst hr
        rcases List.mem_cons.mp hc with h | h
        · exact ⟨x, by simp, by rw [hfx, h]⟩
        · obtain ⟨a, ha, hfa⟩ := ih hrec c h
          exact ⟨a, List.mem_cons_of_mem x ha, hfa⟩

/-! ## Claim theorems -/

/-- C1 (amended): for a sequence whose minimum and maximum differ, the
normalisation of `map_node.py` succeeds, preserves the length, every entry is a
defined value in `[0, 1]`, entries at positions holding the maximum are `1`, and
entries at positions holding the minimum are `0`.  (The constant case is settled
by the counterexample: the code has no explicit branch and yields NaN.) -/
theorem normalize_nonconstant_spec (v : List ℚ) (mn mx : ℚ)
    (hmn : v.min? = some mn) (hmx : v.max? = some mx) (hne : mn ≠ mx) :
    ∃ l, normalizeNp v = some l ∧ l.length = v.length ∧
      (∀ o ∈ l, ∃ t, o = some t ∧ 0 ≤ t ∧ t ≤ 1) ∧
      (∀ i (hi : i < v.length) (hl : i < l.length),
        (v.get ⟨i, hi⟩ = mx → l.get ⟨i, hl⟩ = some 1) ∧
        (v.get ⟨i, hi⟩ = mn → l.get ⟨i, hl⟩ = some 0)) := by
  obtain ⟨hmem_mn, hlb⟩ := min?_spec hmn
  obtain ⟨hmem_mx, hub⟩ := max?_spec hmx
  have hle : mn < mx := lt_of_le_of_ne (hlb mx hmem_mx) hne
  have hd : mx - mn ≠ 0 := sub_ne_zero.mpr (ne_of_gt hle)
  have hdpos : 0 < mx - mn := sub_pos.mpr hle
  refine ⟨v.map fun x => ratDiv (x - mn) (mx - mn), ?_, by simp, ?_, ?_⟩
  · rw [normalizeNp, hmn, hmx]
  · intro o ho
    obtain ⟨x, hx, rfl⟩ := List.mem_map.mp ho
    refine ⟨(x - mn) / (mx - mn), by simp [ratDiv, hd], ?_, ?_⟩
    · exact div_nonneg (sub_nonneg.mpr (hlb x hx)) (le_of_lt hdpos)
    · rw [div_le_one hdpos]
      exact sub_le_sub_right (hub x hx) mn
  · intro i hi hl
    rw [List.get_map]
    constructor
    · intro hvi
      rw [hvi]
      simp [ratDiv, hd, div_self hd]
    · intro hvi
      rw [hvi]
      simp [ratDiv, hd]

/-- C1 counterexample: on the constant sequence `[10, 10, 10]` the normalisation
divides by zero — every entry is a silent NaN (in `graph.py` the Python-scalar
variant raises `ZeroDivisionError` instead); the source has no explicit branch
producing `0.0`. -/
theorem normalize_constant_is_nan :
    normalizeNp [10, 10, 10] = some [none, none, none] ∧
    normalizeNp [10, 10, 10] ≠ some [some 0, some 0, some 0] := by
  simp [normalizeNp, List.min?, List.max?, ratDiv]

/-- Witness for C1: the amended statement evaluated at the input `[0, 2]`. -/
theorem normalize_nonconstant_witness :
    ∃ l, normalizeNp [0, 2] = some l ∧ l.length = ([0, 2] : List ℚ).length ∧
      (∀ o ∈ l, ∃ t, o = some t ∧ 0 ≤ t ∧ t ≤ 1) ∧
      (∀ i (hi : i < ([0, 2] : List ℚ).length) (hl : i < l.length),
        (([0, 2] : List ℚ).get ⟨i, hi⟩ = 2 → l.get ⟨i, hl⟩ = some 1) ∧
        (([0, 2] : List ℚ).get ⟨i, hi⟩ = 0 → l.get ⟨i, hl⟩ = some 0)) :=
  normalize_nonconstant_spec [0, 2] 0 2 (by decide) (by decide) (by decide)

/-- C7 (amended): for a sequence whose minimum and maximum differ,
`map_node.py::map_node_sizes` (bounds 10 and 50) returns
`min_size + normalized * (max_size - min_size)` entrywise, all within
`[10, 50]`, while `graph.py::_map_vertex_size` uses bounds 5 and 20 and lands in
`[5, 20]`.  (For constant input neither returns `min_size`: see the
counterexample — the division by zero yields NaN, resp. raises.) -/
theorem map_sizes_spec (v : List ℚ) (mn mx : ℚ)
    (hmn : v.min? = some mn) (hmx : v.max? = some mx) (hne : mn ≠ mx) :
    (∃ l, map_node_sizes v = some l ∧ l.length = v.length ∧
      (∀ i (hi : i < v.length) (hl : i < l.length),
        l.get ⟨i, hl⟩ = some (10 + (v.get ⟨i, hi⟩ - mn) / (mx - mn) * (50 - 10))) ∧
      (∀ o ∈ l, ∃ s, o = some s ∧ 10 ≤ s ∧ s ≤ 50)) ∧
    (∃ l, mapVertexSize v = some l ∧ l.length = v.length ∧
      ∀ s ∈ l, 5 ≤ s ∧ s ≤ 20) := by
  obtain ⟨hmem_mn, hlb⟩ := min?_spec hmn
  obtain ⟨hmem_mx, hub⟩ := max?_spec hmx
  have hlt : mn < mx := lt_of_le_of_ne (hlb mx hmem_mx) hne
  have hd : mx - mn ≠ 0 := sub_ne_zero.mpr (ne_of_gt hlt)
  have hdpos : 0 < mx - mn := sub_pos.mpr hlt
  have hnorm : ∀ x ∈ v, 0 ≤ (x - mn) / (mx - mn) ∧ (x - mn) / (mx - mn) ≤ 1 := by
    intro x hx
    refine ⟨div_nonneg (sub_nonneg.mpr (hlb x hx)) (le_of_lt hdpos), ?_⟩
    rw [div_le_one hdpos]
    exact sub_le_sub_right (hub x hx) mn
  constructor
  · refine ⟨(v.map fun x => ratDiv (x - mn) (mx - mn)).map
      (Option.map fun t => 10 + t * (50 - 10)), ?_, by simp, ?_, ?_⟩
    · rw [map_node_sizes, normalizeNp, hmn, hmx, Option.map_some']
    · intro i hi hl
      rw [List.get_map, List.get_map]
      simp [ratDiv, hd]
    · intro o ho
      obtain ⟨o2, ho2, rfl⟩ := List.mem_map.mp ho
      obtain ⟨x, hx, rfl⟩ := List.mem_map.mp ho2
      obtain ⟨ht0, ht1⟩ := hnorm x hx
      refine ⟨10 + (x - mn) / (mx - mn) * (50 - 10), by simp [ratDiv, hd], ?_, ?_⟩
      · nlinarith
      · nlinarith
  · refine ⟨v.map fun x => 5 + (x - mn) / (mx - mn) * (20 - 5), ?_, by simp, ?_⟩
    · rw [mapVertexSize, hmn, hmx]
      simp [hd]
    · intro s hs
      obtain ⟨x, hx, rfl⟩ := List.mem_map.mp hs
      obtain ⟨ht0, ht1⟩ := hnorm x hx
      constructor
      · nlinarith
      · nlinarith

/-- C7 counterexample: the constant sequence `[10, 10, 10]` does not map to
`min_size` — every entry is a silent NaN from the division by zero — and
`graph.py::_map_vertex_size` on `[1, 3]` produces sizes 5 and 20, outside the
claimed default bounds `[10, 50]` (its bounds are 5 and 20). -/
theorem map_sizes_counterexample :
    map_node_sizes [10, 10, 10] = some [none, none, none] ∧
    mapVertexSize [1, 3] = some [5, 20] := by
  constructor
  · simp [map_node_sizes, normalizeNp, List.min?, List.max?, ratDiv]
  · norm_num [mapVertexSize, List.min?, List.max?]

/-- Witness for C7: the amended statement evaluated at the input `[0, 1]`. -/
theorem map_sizes_witness :
    (∃ l, map_node_sizes [0, 1] = some l ∧ l.length = ([0, 1] : List ℚ).length ∧
      (∀ i (hi : i < ([0, 1] : List ℚ).length) (hl : i < l.length),
        l.get ⟨i, hl⟩ = some (10 + (([0, 1] : List ℚ).get ⟨i, hi⟩ - 0) / (1 - 0) * (50 - 10))) ∧
      (∀ o ∈ l, ∃ s, o = some s ∧ 10 ≤ s ∧ s ≤ 50)) ∧
    (∃ l, mapVertexSize [0, 1] = some l ∧ l.length = ([0, 1] : List ℚ).length ∧
      ∀ s ∈ l, 5 ≤ s ∧ s ≤ 20) :=
  map_sizes_spec [0, 1] 0 1 (by decide) (by decide) (by decide)

/-- C2 (code evaluation): with `is_undirected` true the operative extraction
(`graph_extract.py::_extract_graph_components`, the one `plot` hands to the
renderer) returns the edge list as-is — the duplicate reversed pair survives —
while the same block in `map_edge.py`, where the as-is branch is guarded by
`is_directed` instead, produces exactly the two unordered edges the claim
describes.  The two dedup branches of `_extract_graph_components` are swapped. -/
theorem extract_links_dedup_inverted :
    extractLinks true [(0, 1), (1, 0), (1, 2)] = [(0, 1), (1, 0), (1, 2)] ∧
    extractLinksMapEdge false [(0, 1), (1, 0), (1, 2)] = [(0, 1), (1, 2)] := by decide

/-- C3 (code evaluation): on the two-category input `[5, 7]`,
`map_node.py::map_node_colors` indexes the 2-entry palette with the value itself
and raises `IndexError` (`none`), while `graph.py::_map_vertex_color` assigns by
sorted rank as the claim describes, giving palette entries 0 and 1. -/
theorem palette_indexed_by_value_not_rank :
    mapNodeColorsCat [5, 7] = none ∧
    mapVertexColorCat [5, 7] = some ["#F8766D", "#00BFC4"] := by decide

theorem mapVertexColor_continuous (y : List PyNum) (mn mx : ℚ)
    (hc : isContinuousCode y = true)
    (hmn : (vals y).min? = some mn) (hmx : (vals y).max? = some mx) (hne : mn ≠ mx) :
    mapVertexColor y = some ((vals y).map fun x =>
      Color.rgba 1 ((x - mn) / (mx - mn)) (1 - (x - mn) / (mx - mn)) 1) := by
  have hd : mx - mn ≠ 0 := sub_ne_zero.mpr (Ne.symm hne)
  rw [mapVertexColor, if_pos (by rw [hc]), hmn, hmx]
  simp [hd]

/-- C4 (amended): more than 10 distinct categories do not raise any error — no
`PaletteExhaustionError` exists in the code; the classifier routes such a
sequence to the continuous branch, which succeeds (a sequence with more than 10
distinct values always has a non-degenerate range) and samples the spring
colormap, so the fixed palette is never consulted. -/
theorem many_categories_go_continuous (y : List PyNum) (h : 10 < countDistinct y) :
    isContinuousCode y = true ∧
    ∃ mn mx, (vals y).min? = some mn ∧ (vals y).max? = some mx ∧ mn ≠ mx ∧
      mapVertexColor y = some ((vals y).map fun x =>
        Color.rgba 1 ((x - mn) / (mx - mn)) (1 - (x - mn) / (mx - mn)) 1) := by
  have hc : isContinuousCode y = true := by
    rw [isContinuousCode, Bool.or_eq_true]
    exact Or.inr (decide_eq_true h)
  refine ⟨hc, ?_⟩
  cases hmn : (vals y).min? with
  | none =>
    rw [List.min?_eq_none_iff] at hmn
    rw [countDistinct, hmn] at h
    simp at h
  | some mn =>
    cases hmx : (vals y).max? with
    | none =>
      rw [List.max?_eq_none_iff] at hmx
      rw [countDistinct, hmx] at h
      simp at h
    | some mx =>
      have hne : mn ≠ mx := by
        intro he
        obtain ⟨_, hlb⟩ := min?_spec hmn
        obtain ⟨_, hub⟩ := max?_spec hmx
        have hconst : ∀ x ∈ vals y, x = mn := fun x hx =>
          le_antisymm (he ▸ hub x hx) (hlb x hx)
        have := dedup_length_le_one_of_const hconst
        rw [countDistinct] at h
        omega
      exact ⟨mn, mx, rfl, rfl, hne, mapVertexColor_continuous _ _ _ hc hmn hmx hne⟩

/-- C4 counterexample: eleven distinct integer categories (`0, …, 10`) raise no
error at all — the colour mapping returns normally, with continuous-colormap
colours; the claimed `PaletteExhaustionError` does not occur (and exists nowhere
in the code). -/
theorem eleven_categories_no_error :
    isContinuousCode [PyNum.int 0, PyNum.int 1, PyNum.int 2, PyNum.int 3,
      PyNum.int 4, PyNum.int 5, PyNum.int 6, PyNum.int 7, PyNum.int 8,
      PyNum.int 9, PyNum.int 10] = true ∧
    (mapVertexColor [PyNum.int 0, PyNum.int 1, PyNum.int 2, PyNum.int 3,
      PyNum.int 4, PyNum.int 5, PyNum.int 6, PyNum.int 7, PyNum.int 8,
      PyNum.int 9, PyNum.int 10]).isSome = true := by
  refine ⟨by decide, ?_⟩
  rw [mapVertexColor_continuous _ 0 10 (by decide) (by decide) (by decide) (by decide)]
  rfl

/-- Witness for C4: the amended statement evaluated at twelve distinct integer
categories. -/
theorem many_categories_witness :
    isContinuousCode [PyNum.int 0, PyNum.int 1, PyNum.int 2, PyNum.int 3,
      PyNum.int 4, PyNum.int 5, PyNum.int 6, PyNum.int 7, PyNum.int 8,
      PyNum.int 9, PyNum.int 10, PyNum.int 11] = true ∧
    ∃ mn mx, (vals [PyNum.int 0, PyNum.int 1, PyNum.int 2, PyNum.int 3,
        PyNum.int 4, PyNum.int 5, PyNum.int 6, PyNum.int 7, PyNum.int 8,
        PyNum.int 9, PyNum.int 10, PyNum.int 11]).min? = some mn ∧
      (vals [PyNum.int 0, PyNum.int 1, PyNum.int 2, PyNum.int 3,
        PyNum.int 4, PyNum.int 5, PyNum.int 6, PyNum.int 7, PyNum.int 8,
        PyNum.int 9, PyNum.int 10, PyNum.int 11]).max? = some mx ∧ mn ≠ mx ∧
      mapVertexColor [PyNum.int 0, PyNum.int 1, PyNum.int 2, PyNum.int 3,
        PyNum.int 4, PyNum.int 5, PyNum.int 6, PyNum.int 7, PyNum.int 8,
        PyNum.int 9, PyNum.int 10, PyNum.int 11] =
        some ((vals [PyNum.int 0, PyNum.int 1, PyNum.int 2, PyNum.int 3,
          PyNum.int 4, PyNum.int 5, PyNum.int 6, PyNum.int 7, PyNum.int 8,
          PyNum.int 9, PyNum.int 10, PyNum.int 11]).map fun x =>
          Color.rgba 1 ((x - mn) / (mx - mn)) (1 - (x - mn) / (mx - mn)) 1) :=
  many_categories_go_continuous _ (by decide)

/-- C8: the classifier marks a sequence continuous exactly when some element is
a float or more than 10 distinct values occur; the continuous branch (when the
value range is non-degenerate) produces spring-colormap samples of the
normalised values; the categorical branch draws every produced colour from the
fixed palette selected by the distinct-value count. -/
theorem color_classification_spec (y : List PyNum) :
    (isContinuousCode y = true ↔
      (∃ e ∈ y, e.isFloat = true) ∨ 10 < (vals y).dedup.length) ∧
    (∀ mn mx, isContinuousCode y = true → (vals y).min? = some mn →
      (vals y).max? = some mx → mn ≠ mx →
      mapVertexColor y = some ((vals y).map fun x =>
        Color.rgba 1 ((x - mn) / (mx - mn)) (1 - (x - mn) / (mx - mn)) 1)) ∧
    (isContinuousCode y = false → ∀ l, mapVertexColor y = some l →
      ∀ c ∈ l, ∃ p, colors_dict (y.map PyNum.toInt).dedup.length = some p ∧
        ∃ s ∈ p, c = Color.hex s) := by
  refine ⟨?_, ?_, ?_⟩
  · simp [isContinuousCode, List.any_eq_true, countDistinct]
  · intro mn mx hc hmn hmx hne
    exact mapVertexColor_continuous _ _ _ hc hmn hmx hne
  · intro hc l hl c hcl
    rw [mapVertexColor, if_neg (by rw [hc]; exact Bool.false_ne_true)] at hl
    obtain ⟨l0, hl0, rfl⟩ := Option.map_eq_some'.mp hl
    rw [mapVertexColorCat] at hl0
    cases hp : colors_dict (y.map PyNum.toInt).dedup.length with
    | none => rw [hp] at hl0; exact absurd hl0 (by simp)
    | some p =>
      rw [hp] at hl0
      obtain ⟨s, hs, rfl⟩ := List.mem_map.mp hcl
      obtain ⟨a, _, hfa⟩ := mapLoop_mem hl0 s hs
      obtain ⟨i, _, hgi⟩ := Option.bind_eq_some.mp hfa
      exact ⟨p, rfl, s, List.get?_mem hgi, rfl⟩

/-- Witness for C8: the continuous conjunct evaluated at the float sequence
`[0.0, 2.0]`: both elements are floats, the range is `0` to `2`, and the colours
are the spring samples at positions `0` and `1`. -/
theorem color_classification_witness :
    mapVertexColor [PyNum.float 0, PyNum.float 2] =
      some [Color.rgba 1 0 1 1, Color.rgba 1 1 0 1] := by
  have h := (color_classification_spec [PyNum.float 0, PyNum.float 2]).2.1 0 2
    (by decide) (by decide) (by decide) (by decide)
  rw [h]
  norm_num [vals, PyNum.toRat]

/-- C6 (amended): an all-zero weight sequence does not raise and does not give
zero pen widths — `weights / weights.max()` silently produces a NaN for every
entry, which is what the property map receives. -/
theorem zero_weights_all_nan (w : List ℚ) (s : ℚ) (hne : w ≠ [])
    (hz : ∀ x ∈ w, x = 0) :
    map_edge_pen_widths w s = some (List.replicate w.length none) := by
  cases hmx : w.max? with
  | none => rw [List.max?_eq_none_iff] at hmx; exact absurd hmx hne
  | some mx =>
    have h0 : mx = 0 := hz mx (max?_spec hmx).1
    rw [map_edge_pen_widths, hmx, h0]
    simp only [Option.some.injEq]
    calc w.map (fun x => (ratDiv x 0).map (· * s))
        = w.map (fun _ => (none : Option ℚ)) :=
          List.map_congr_left (by intro a _; simp [ratDiv])
      _ = List.replicate w.length none := by
          rw [List.map_const']

/-- C6 counterexample: with all weights zero the pen-width computation returns
normally with every entry NaN — it neither raises an explicit error nor returns
`0` for every entry. -/
theorem zero_weights_nan :
    map_edge_pen_widths [0, 0, 0] 5 = some [none, none, none] ∧
    map_edge_pen_widths [0, 0, 0] 5 ≠ some [some 0, some 0, some 0] := by
  constructor
  · simp [map_edge_pen_widths, List.max?, ratDiv]
  · simp [map_edge_pen_widths, List.max?, ratDiv]

/-- Witness for C6: the amended statement evaluated at the weights `[0, 0]`. -/
theorem zero_weights_witness :
    map_edge_pen_widths [0, 0] 3 = some (List.replicate 2 none) :=
  zero_weights_all_nan [0, 0] 3 (by decide) (by decide)

/-- C9: for as many weights as links and a non-zero maximum weight, `_set_links`
renders each weight through the format-string semantics `fmt` and sets each pen
width to `weights[idx] / max(weights) * scale`. -/
theorem set_links_spec (links : List (ℕ × ℕ)) (weights : List ℚ) (fmt : ℚ → String)
    (scale mx : ℚ) (hmx : weights.max? = some mx) (h0 : mx ≠ 0)
    (hlen : links.length = weights.length) :
    setLinks links weights fmt scale =
      some (weights.map fmt, weights.map fun w => some (w / mx * scale)) := by
  have ht : links.length ≤ weights.length := le_of_eq hlen
  rw [setLinks, hmx]
  simp only [ht, if_true, hlen, List.take_length]
  have hfun : (fun w => (ratDiv w mx).map (· * scale)) =
      fun w => some (w / mx * scale) := by
    funext w
    simp [ratDiv, h0]
  rw [hfun]
  exact if_pos (le_refl _)

/-- Witness for C9: the round-trip of the claim — weights `[1, 2, 4]`, width
scale `5`, two-decimal fixed-point text — gives texts `1.00, 2.00, 4.00` and pen
widths `5/4 = 1.25`, `5/2 = 2.5`, `5`. -/
theorem set_links_witness :
    setLinks [(0, 1), (1, 2), (2, 0)] [1, 2, 4] formatFix2 5 =
      some (["1.00", "2.00", "4.00"], [some (5 / 4), some (5 / 2), some 5]) := by
  have h := set_links_spec [(0, 1), (1, 2), (2, 0)] [1, 2, 4] formatFix2 5 4
    (by decide) (by decide) (by decide)
  have r1 : roundHalfEven ((1 : ℚ) * 100) = 100 := by rw [roundHalfEven]; norm_num
  have r2 : roundHalfEven ((2 : ℚ) * 100) = 200 := by rw [roundHalfEven]; norm_num
  have r4 : roundHalfEven ((4 : ℚ) * 100) = 400 := by rw [roundHalfEven]; norm_num
  have f1 : formatFix2 1 = "1.00" := by rw [formatFix2, r1]; rfl
  have f2 : formatFix2 2 = "2.00" := by rw [formatFix2, r2]; rfl
  have f4 : formatFix2 4 = "4.00" := by rw [formatFix2, r4]; rfl
  rw [h]
  simp only [List.map_cons, List.map_nil, f1, f2, f4]
  norm_num

/-- C5 (amended): no shape check exists — with fewer names than nodes the label
mapping returns normally, labels exactly the indices of the supplied names, and
leaves every remaining node with the empty default label; no `ShapeMismatchError`
is raised (none exists in the code). -/
theorem map_names_silent_truncation (n : ℕ) (names : List String)
    (h : names.length ≤ n) :
    ∃ l, map_node_names n names = some l ∧ l.length = n ∧
      (∀ i, i < names.length → l.get? i = some (names.getD i "")) ∧
      (∀ i, names.length ≤ i → i < n → l.get? i = some "") := by
  refine ⟨(List.range n).map fun i => names.getD i "", ?_, by simp, ?_, ?_⟩
  · rw [map_node_names, if_pos h]
  · intro i hi
    rw [List.get?_map, List.get?_range (lt_of_lt_of_le hi h)]
    rfl
  · intro i hi hn
    rw [List.get?_map, List.get?_range hn]
    simp [List.getD_eq_getElem?_getD, List.getElem?_eq_none hi]

/-- C5 counterexample: two names for three nodes — `map_node_names` returns
normally, labelling nodes 0 and 1 and leaving node 2 with the empty default:
labels are silently truncated, no error is raised before (or after) the
per-index assignment. -/
theorem short_names_no_error :
    map_node_names 3 ["a", "b"] = some ["a", "b", ""] := by decide

/-- Witness for C5: the amended statement evaluated at two names for three
nodes. -/
theorem map_names_witness :
    ∃ l, map_node_names 3 ["a", "b"] = some l ∧ l.length = 3 ∧
      (∀ i, i < (["a", "b"] : List String).length →
        l.get? i = some ((["a", "b"] : List String).getD i "")) ∧
      (∀ i, (["a", "b"] : List String).length ≤ i → i < 3 → l.get? i = some "") :=
  map_names_silent_truncation 3 ["a", "b"] (by decide)

/-- C10: in the plot entry point an empty `node_names` list is falsy exactly
like `None`: no vertex text property is created (the renderer receives
`vertex_text=None` and skips label display), rather than an empty zero-entry
label mapping, while a non-empty list does create the positional property. -/
theorem empty_names_like_none :
    setNodesText (some []) = none ∧ setNodesText none = none ∧
    setNodesText (some ["a"]) = some ["a"] := by decide
